import Mathlib

/-!
# loggit: the terminal UI core (`lib/ui/init.go`)

A shallow embedding of the styled-text renderer `Parse`, the menu and table
cursor transitions, the table layout computation of `Table.render` and the
multi-select key reader `Menu.getKey`, followed by theorems about them.

Conventions of the embedding.

* A Go `string` is a sequence of bytes: `GoString` is `List Nat`, every element
  a byte value `0..255`.  `len(s)` is `s.length`, `s[i]` is the `i`-th byte.
* A Go `int` is an `Int` (no length in this program comes near `2^63`).
* A run-time panic (slice bound out of range, index out of range, negative
  `strings.Repeat` count) is the result `none`.
-/

namespace Loggit

/-- A Go string: its bytes. -/
abbrev GoString := List Nat

/-- The bytes of an ASCII literal of the source. -/
def ascii (s : String) : GoString := s.toList.map Char.toNat

/-! ## Go built-ins used by `Parse` -/

/-- The Go conversion `string(b)` of a byte `b`: the UTF-8 encoding of the code
point `b`.  One byte below 128, the two bytes `0xC0 | b>>6`, `0x80 | b&0x3F`
from 128 on. -/
def byteString (b : Nat) : GoString :=
  if b < 128 then [b] else [192 + b / 64, 128 + b % 64]

/-- The constant `utf8.RuneError`. -/
def RuneError : Nat := 0xFFFD

/-- The six ASCII white space bytes of `strings.TrimSpace`'s fast path:
tab, line feed, vertical tab, form feed, carriage return, space. -/
def asciiSpace (c : Nat) : Bool :=
  c = 9 || c = 10 || c = 11 || c = 12 || c = 13 || c = 32

/-- The predicate `unicode.IsSpace` on a code point. -/
def IsSpace (r : Nat) : Bool :=
  r = 9 || r = 10 || r = 11 || r = 12 || r = 13 || r = 32 || r = 0x85 || r = 0xA0
    || r = 0x1680 || (0x2000 ≤ r && r ≤ 0x200A) || r = 0x2028 || r = 0x2029
    || r = 0x202F || r = 0x205F || r = 0x3000

/-- Classification of the first byte of a UTF-8 sequence: the sequence length
(`1` for ASCII, `0` for an invalid first byte) and the accepted range of the
second byte. -/
def firstByte (b : Nat) : Nat × Nat × Nat :=
  if b < 0x80 then (1, 0, 0)
  else if b < 0xC2 then (0, 0, 0)
  else if b ≤ 0xDF then (2, 0x80, 0xBF)
  else if b = 0xE0 then (3, 0xA0, 0xBF)
  else if b ≤ 0xEC then (3, 0x80, 0xBF)
  else if b = 0xED then (3, 0x80, 0x9F)
  else if b ≤ 0xEF then (3, 0x80, 0xBF)
  else if b = 0xF0 then (4, 0x90, 0xBF)
  else if b ≤ 0xF3 then (4, 0x80, 0xBF)
  else if b = 0xF4 then (4, 0x80, 0x8F)
  else (0, 0, 0)

/-- A continuation byte outside `0x80..0xBF`. -/
def notCont (b : Nat) : Bool := b < 0x80 || 0xBF < b

/-- The function `utf8.DecodeRuneInString`: the first code point of `s` and its
width in bytes; `(RuneError, 1)` on an invalid encoding, `(RuneError, 0)` on
the empty string. -/
def DecodeRuneInString : GoString → Nat × Nat
  | [] => (RuneError, 0)
  | s0 :: rest =>
    match firstByte s0 with
    | (0, _, _) => (RuneError, 1)
    | (1, _, _) => (s0, 1)
    | (sz, lo, hi) =>
      if rest.length + 1 < sz then (RuneError, 1) else
      match rest with
      | [] => (RuneError, 1)
      | s1 :: r1 =>
        if s1 < lo || hi < s1 then (RuneError, 1)
        else if sz ≤ 2 then ((s0 % 32) * 64 + s1 % 64, 2)
        else match r1 with
          | [] => (RuneError, 1)
          | s2 :: r2 =>
            if notCont s2 then (RuneError, 1)
            else if sz ≤ 3 then ((s0 % 16) * 4096 + (s1 % 64) * 64 + s2 % 64, 3)
            else match r2 with
              | [] => (RuneError, 1)
              | s3 :: _ =>
                if notCont s3 then (RuneError, 1)
                else ((s0 % 8) * 262144 + (s1 % 64) * 4096 + (s2 % 64) * 64 + s3 % 64, 4)

/-- Number of trailing bytes that `utf8.DecodeLastRuneInString` hands to the
decoder: it walks back from the byte before the last one, over at most three
bytes, to the first byte that is not a continuation byte; `rev` is the string
reversed. -/
def lastRuneSpan (rev : GoString) : Nat :=
  match rev with
  | _ :: b1 :: b2 :: b3 :: tl =>
    if !(128 ≤ b1 && b1 < 192) then 2
    else if !(128 ≤ b2 && b2 < 192) then 3
    else if !(128 ≤ b3 && b3 < 192) then 4
    else if tl = [] then 4 else 5
  | [_, b1, _] =>
    if !(128 ≤ b1 && b1 < 192) then 2 else 3
  | [_, _] => 2
  | [_] => 1
  | [] => 0

/-- The function `utf8.DecodeLastRuneInString`: the last code point of `s` and
its width. -/
def DecodeLastRuneInString (s : GoString) : Nat × Nat :=
  match s.reverse with
  | [] => (RuneError, 0)
  | last :: before =>
    if last < 128 then (last, 1) else
    let k := lastRuneSpan (last :: before)
    let d := DecodeRuneInString (s.drop (s.length - k))
    if d.2 ≠ k then (RuneError, 1) else d

/-- The function `strings.TrimLeftFunc(s, unicode.IsSpace)`: `s` from its first
code point that is not white space.  The fuel bounds the number of code points
looked at; `s.length` is enough since every code point has a width of at least
one byte. -/
def trimLeftLoop : Nat → GoString → GoString
  | 0, _ => []
  | fuel + 1, s =>
    if s = [] then []
    else if IsSpace (DecodeRuneInString s).1 then
      trimLeftLoop fuel (s.drop (DecodeRuneInString s).2)
    else s

/-- The function `lastIndexFunc(s, unicode.IsSpace, false)`: the byte index at
which the last code point that is not white space starts, `-1` when there is
none. -/
def lastIndexLoop : Nat → GoString → Int
  | 0, _ => -1
  | fuel + 1, s =>
    if s = [] then -1
    else
      let d := DecodeLastRuneInString s
      if IsSpace d.1 then lastIndexLoop fuel (s.take (s.length - d.2))
      else (s.length - d.2 : Nat)

/-- The function `strings.TrimRightFunc(s, unicode.IsSpace)`. -/
def TrimRightFunc (s : GoString) : GoString :=
  let i := lastIndexLoop s.length s
  if 0 ≤ i ∧ 128 ≤ s.getD i.toNat 0 then
    s.take (i.toNat + (DecodeRuneInString (s.drop i.toNat)).2)
  else s.take (i + 1).toNat

/-- The function `strings.TrimFunc(s, unicode.IsSpace)`. -/
def TrimFunc (s : GoString) : GoString :=
  TrimRightFunc (trimLeftLoop s.length s)

/-- Second loop of `strings.TrimSpace`, on the reversed string: drop trailing
ASCII white space, and switch to the Unicode-aware trimming at the first byte
from 128 on. -/
def trimStop : GoString → GoString
  | [] => []
  | c :: rest =>
    if 128 ≤ c then (TrimRightFunc (c :: rest).reverse).reverse
    else if asciiSpace c then trimStop rest
    else c :: rest

/-- The function `strings.TrimSpace`: first loop over the leading bytes, then
`trimStop` over the trailing ones. -/
def TrimSpace : GoString → GoString
  | [] => []
  | c :: rest =>
    if 128 ≤ c then TrimFunc (c :: rest)
    else if asciiSpace c then TrimSpace rest
    else (trimStop (c :: rest).reverse).reverse

/-- The function `strings.Split(s, sep)` for a separator of one byte: the
pieces of `s` between the occurrences of `sep`, always at least one piece. -/
def Split (sep : Nat) : GoString → List GoString
  | [] => [[]]
  | b :: rest =>
    if b = sep then [] :: Split sep rest
    else match Split sep rest with
      | [] => [[b]]
      | piece :: pieces => (b :: piece) :: pieces

/-! ## Style Engine -/

/-- The entries of the map literal of `StyleMap()`. -/
def styleTable : List (String × String) :=
  [ ("red", "\x1b[31;1m"),
    ("blue", "\x1b[34;1m"),
    ("green", "\x1b[32;1m"),
    ("yellow", "\x1b[33;1m"),
    ("black", "\x1b[30m"),
    ("white", "\x1b[37m"),
    ("cyan", "\x1b[36m"),
    ("magenta", "\x1b[35m"),
    ("gray", "\x1b[30;1m"),
    ("lightGray", "\x1b[37;1m"),
    ("bgWhite", "\x1b[47m"),
    ("bgBlack", "\x1b[40m"),
    ("bgBlue", "\x1b[44m"),
    ("bold", "\x1b[1m"),
    ("reset", "\x1b[0m"),
    ("underline", "\x1b[4m"),
    ("blink", "\x1b[5m"),
    ("reverse", "\x1b[7m") ]

/-- The lookup `StyleMap()[name]`: the escape code of `name`, the empty string
(the zero value) when `name` is not a key. -/
def StyleMap (name : GoString) : GoString :=
  match styleTable.find? (fun e => ascii e.1 = name) with
  | some e => ascii e.2
  | none => []

/-- The local variables of `Parse` that live across loop iterations. -/
structure ParseState where
  output : GoString
  currentStyle : GoString
  styling : Bool
  prevChar : Nat
deriving DecidableEq

/-- One iteration of the loop of `Parse` on the byte `c = input[i]`.
`91` is `'['`, `93` is `']'`, `47` is `'/'`, `44` is `','`.  The slice
`output[:len(output)-1]` panics when `output` is empty. -/
def parseStep (st : ParseState) (c : Nat) : Option ParseState :=
  if c = 91 ∧ st.prevChar ≠ 47 then
    some { st with currentStyle := [], styling := true, prevChar := c }
  else if (c = 91 ∨ c = 93) ∧ st.prevChar = 47 then
    if st.output.length = 0 then none
    else some { st with
      output := st.output.take (st.output.length - 1) ++ byteString c,
      prevChar := c }
  else if c = 93 ∧ st.prevChar ≠ 47 then
    some { output := (Split 44 st.currentStyle).foldl
                       (fun out style => out ++ StyleMap (TrimSpace style)) st.output,
           currentStyle := [],
           styling := false,
           prevChar := c }
  else if st.styling = false then
    some { st with output := st.output ++ byteString c, prevChar := c }
  else
    some { st with currentStyle := st.currentStyle ++ byteString c, prevChar := c }

/-- The loop `for i := 0; i < len(input); i++` of `Parse`. -/
def parseLoop : GoString → ParseState → Option ParseState
  | [], st => some st
  | c :: rest, st => (parseStep st c).bind (parseLoop rest)

/-- The function `Parse`: `some output`, or `none` when it panics. -/
def Parse (input : GoString) : Option GoString :=
  (parseLoop input { output := [], currentStyle := [], styling := false, prevChar := 0 }).map
    (fun st => st.output)


/-- The tokens `t1, ..., tn` written with a `','` between neighbours, as in the
directive `[t1,...,tn]`. -/
def joinComma : List GoString → GoString
  | [] => []
  | [t] => t
  | t :: t2 :: ts => t ++ 44 :: joinComma (t2 :: ts)

/-- The escape code that `Parse` emits for a style token: the `StyleMap` entry
of the token with surrounding white space trimmed. -/
def code (t : GoString) : GoString := StyleMap (TrimSpace t)

/-- Last byte of `x`, or `p` when `x` is empty: the value of `prevChar` once
the loop has read `x`. -/
def lastByte (p : Nat) (x : GoString) : Nat := x.foldl (fun _ c => c) p

/-! ## Key Reader -/

/-- The key table `keys`: the byte values 13, 32, 27 and 91 are its keys. -/
def keys : List (Nat × String) :=
  [(13, "enter"), (32, "space"), (27, "esc"), (91, "arrow")]

/-- The key code `up`. -/
def up : Nat := 65

/-- The key code `down`. -/
def down : Nat := 66

/-- The key code `right`. -/
def right : Nat := 67

/-- The key code `left`. -/
def left : Nat := 68

/-- The function `GetKey`, after the terminal has been read: `b0 b1 b2` is the
content of the 3-byte buffer `readBytes`. -/
def GetKey (b0 b1 b2 : Nat) : Nat :=
  if b0 = 27 ∧ b1 = 91 then b2 else b0

/-- The method `Menu.getKey`, after raw mode has been entered: `read` is the
number of bytes that `t.Read` reports, `b0 b1 b2` the content of the buffer
`readBytes` (zero where nothing was read), `restoreOk` and `closeOk` tell
whether `t.Restore()` and `t.Close()` returned no error. -/
def getKey (restoreOk closeOk : Bool) (read : Int) (b0 _b1 b2 : Nat) : Nat :=
  if restoreOk = false then 0
  else if closeOk = false then 0
  else if read = 3 then
    if (keys.find? (fun e => e.1 = b2)).isSome then b2 else 0
  else b0

/-! ## Menu Widget -/

/-- A menu entry: display text and value. -/
structure MenuItem where
  Text : GoString
  Value : GoString
deriving DecidableEq

/-- The struct `Menu`. -/
structure Menu where
  Prompt : GoString
  CursorPos : Int
  Selected : List Int
  MenuItems : List MenuItem
deriving DecidableEq

/-- The function `contains`. -/
def contains : List Int → Int → Bool
  | [], _ => false
  | item :: rest, val => if item = val then true else contains rest val

/-- The function `remove`: the loop appends to `output` every item that
differs from `val`. -/
def remove (arr : List Int) (val : Int) : List Int :=
  arr.foldl (fun output item => if item ≠ val then output ++ [item] else output) []

/-- One iteration of the loop of `Menu.Select` on a key that is not enter
(enter, 13, leaves the loop and returns the value under the cursor). -/
def selectKey (m : Menu) (key : Nat) : Menu :=
  if key = up then
    if m.CursorPos > 0 then { m with CursorPos := m.CursorPos - 1 } else m
  else if key = down then
    if m.CursorPos < (m.MenuItems.length : Int) - 1 then
      { m with CursorPos := m.CursorPos + 1 }
    else m
  else m

/-- One iteration of the loop of `Menu.MultiSelect` on a key that is not enter
(enter, 13, leaves the loop and returns the values of the selected items). -/
def multiSelectKey (m : Menu) (key : Nat) : Menu :=
  if key = up then
    { m with CursorPos := max (m.CursorPos - 1) 0 }
  else if key = down then
    { m with CursorPos := min (m.CursorPos + 1) ((m.MenuItems.length : Int) - 1) }
  else if key = 32 then
    if !contains m.Selected m.CursorPos then
      { m with Selected := m.Selected ++ [m.CursorPos] }
    else
      { m with Selected := remove m.Selected m.CursorPos }
  else m

/-! ## Table Widget -/

/-- The struct `Table` (the field `DisplayHeaders` is never read and is left
out). -/
structure Table where
  Columns : List GoString
  Rows : List (List GoString)
  selectedRow : Int
deriving DecidableEq

/-- The method `Table.removeIndex`: `append(t.Rows[:i], t.Rows[i+1:]...)`.  The
slice expressions panic unless `0 ≤ i` and `i + 1 ≤ len(t.Rows)`. -/
def removeIndex (t : Table) (i : Int) : Option (List (List GoString)) :=
  if 0 ≤ i ∧ i + 1 ≤ (t.Rows.length : Int) then
    some (t.Rows.take i.toNat ++ t.Rows.drop (i.toNat + 1))
  else none

/-- The bounds of the highlighted row: `0 ≤ selectedRow`, and
`selectedRow ≤ len(rows) - 1` unless there are no rows. -/
def rowInBounds (t : Table) : Prop :=
  0 ≤ t.selectedRow ∧ (t.Rows = [] ∨ t.selectedRow ≤ (t.Rows.length : Int) - 1)

instance (t : Table) : Decidable (rowInBounds t) := by
  unfold rowInBounds; infer_instance

/-- The function `strings.Repeat(s, count)`; it panics on a negative count. -/
def Repeat (s : GoString) (count : Int) : Option GoString :=
  if count < 0 then none else some (List.replicate count.toNat s).flatten

/-- The constant `padding` of `Table.render`. -/
def padding : Int := 2

/-- Body of the first loop of `Table.render` for the column `column` of index
`i`: the value stored in `columnMaxWidthMap[i]`.  The access `row[i]` panics
when the row has no cell `i`. -/
def columnWidth (rows : List (List GoString)) (i : Nat) (column : GoString) : Option Int :=
  (rows.foldlM (fun (curmax : Int) (row : List GoString) =>
      (row.get? i).map (fun cell => max curmax (cell.length : Int))) 0).map
    (fun curmax => max curmax (column.length : Int) + padding)

/-- First loop of `Table.render`: the map `columnMaxWidthMap`, as the list of
its values at the keys `0, 1, ..., len(t.Columns) - 1`. -/
def columnMaxWidthMap (t : Table) : Option (List Int) :=
  t.Columns.enum.mapM (fun ic => columnWidth t.Rows ic.1 ic.2)

/-- The cell text `fmt.Sprintf(style + "%s%s%s[reset]", strings.Repeat(" ",
width - len(column)), column, strings.Repeat(" ", padding))`. -/
def cellText (style : GoString) (width : Int) (column : GoString) : Option GoString :=
  (Repeat [32] (width - column.length)).bind (fun lead =>
    (Repeat [32] padding).map (fun trail =>
      style ++ lead ++ column ++ trail ++ ascii "[reset]"))

/-- Second loop of `Table.render`: the header line, without the line feed. -/
def headerText (widths : List Int) (columns : List GoString) : Option GoString :=
  columns.enum.foldlM (fun output ic =>
    (cellText (ascii "[bgBlack,bold,blue]") (widths.getD ic.1 0) ic.2).map
      (fun cell => output ++ cell)) []

/-- Inner loop of the third loop of `Table.render`: one body row, without the
line feed.  A key that is missing from the map reads as `0`. -/
def rowText (widths : List Int) (style : GoString) (row : List GoString) : Option GoString :=
  row.enum.foldlM (fun output ic =>
    (cellText style (widths.getD ic.1 0) ic.2).map (fun cell => output ++ cell)) []

/-- Third loop of `Table.render`: the body rows, each followed by a line feed;
the row under `selectedRow` has the highlighted style. -/
def bodyText (widths : List Int) (t : Table) : Option GoString :=
  t.Rows.enum.foldlM (fun output ir =>
    (rowText widths
        (if t.selectedRow = (ir.1 : Int) then ascii "[bgWhite,black]"
         else ascii "[bgBlack,white]") ir.2).map
      (fun line => output ++ line ++ [10])) []

/-- The footer hint of `Table.render`. -/
def msg : GoString := ascii "D to delete, E to edit, Enter to exit, B to go back"

/-- The count of the footer padding: `totalWidth/2 - len(msg)/2`, with Go's
truncating integer division. -/
def footerPad (widths : List Int) : Int :=
  Int.tdiv widths.sum 2 - Int.tdiv (msg.length : Int) 2

/-- The footer line of `Table.render` before `Println`. -/
def footerText (widths : List Int) : Option GoString :=
  (Repeat [32] (footerPad widths)).map (fun whitespace =>
    ascii "[bgBlack,green]" ++ whitespace ++ msg ++ whitespace ++ ascii "[reset]")

/-- The function `Println` on the standard output: the parsed text and a line
feed. -/
def Println (input : GoString) : Option GoString :=
  (Parse input).map (fun out => out ++ [10])

/-- The method `Table.render`: everything it writes to the standard output, or
`none` when it panics. -/
def render (t : Table) : Option GoString :=
  (columnMaxWidthMap t).bind (fun widths =>
  (headerText widths t.Columns).bind (fun header =>
  (bodyText widths t).bind (fun body =>
  (Println (header ++ [10] ++ body)).bind (fun printed =>
  (footerText widths).bind (fun footer =>
  (Println footer).map (fun printedFooter =>
    printed ++ ascii "\x1b[1A" ++ ascii "\x1b[K" ++ printedFooter))))))

/-- The table that `viewLogs` builds from the records `logs`, each given as its
four cells. -/
def viewLogsTable (logs : List (List GoString)) : Table :=
  { Columns := [ascii "Customer", ascii "Hours", ascii "Date", ascii "Description"],
    Rows := logs,
    selectedRow := 0 }

/-- Largest byte length of a cell of column `i`, `0` when there are no rows:
the maximum named in the specification of the column width. -/
def maxCellLen (rows : List (List GoString)) (i : Nat) : Int :=
  (rows.map (fun row => ((row.getD i []).length : Int))).foldr max 0


/-! ### The loop of `Table.Render` -/

/-- State of the loop of `Table.Render`: the table and the number of records
that the storage collaborator holds (`len(db.GetDb().GetLogs())`). -/
structure RenderState where
  table : Table
  dbLogs : Int
deriving DecidableEq

/-- What the user does in one iteration of the loop of `Table.Render`, the keys
enter and `b` (which return) apart: the key up, the key down, `d` answered with
`y`, `d` answered with `n`, and `e` followed by the four prompts, of which
`cells` are the answers (`customer`, `fmt.Sprintf("%f", hours)`, `date`,
`description`). -/
inductive TableEvent where
  | keyUp
  | keyDown
  | deleteConfirmed
  | deleteDeclined
  | edit (cells : List GoString)
deriving DecidableEq

/-- The key handling of one iteration of the loop of `Table.Render`, from
`if key == up` to the end of the `else if` chain, without the `t.render()`
that follows it.  `RemoveLog(i)`, `GetLogs()[i]` and `UpdateLog(i, _)` panic
unless `0 ≤ i < len(Logs)`, and so does the assignment `t.Rows[i] = ...`
unless `0 ≤ i < len(t.Rows)`. -/
def renderKey (s : RenderState) : TableEvent → Option RenderState
  | .keyUp =>
    some { s with table := { s.table with selectedRow := max (s.table.selectedRow - 1) 0 } }
  | .keyDown =>
    some { s with table := { s.table with
      selectedRow := min (s.table.selectedRow + 1) ((s.table.Rows.length : Int) - 1) } }
  | .deleteConfirmed =>
    if 0 ≤ s.table.selectedRow ∧ s.table.selectedRow < s.dbLogs then
      (removeIndex s.table s.table.selectedRow).map (fun rows =>
        { table := { s.table with Rows := rows }, dbLogs := s.dbLogs - 1 })
    else none
  | .deleteDeclined => some s
  | .edit cells =>
    if 0 ≤ s.table.selectedRow ∧ s.table.selectedRow < s.dbLogs then
      if s.table.selectedRow < (s.table.Rows.length : Int) then
        some { s with table := { s.table with
          Rows := s.table.Rows.set s.table.selectedRow.toNat cells } }
      else none
    else none

/-- One iteration of the loop of `Table.Render`: the key handling `renderKey`,
then the `t.render()` that ends the iteration.  The result is `none` when
either of them panics. -/
def renderEvent (s : RenderState) (ev : TableEvent) : Option RenderState :=
  (renderKey s ev).bind (fun s2 => (render s2.table).map (fun _ => s2))

/-- The method `Table.Render` run on the events `evs`: the `t.render()` before
the loop, then one iteration for each event.  The result is the state the loop
is in after the last event, `none` when a panic ended the run before. -/
def Render (s : RenderState) (evs : List TableEvent) : Option RenderState :=
  (render s.table).bind (fun _ => evs.foldlM renderEvent s)

/-! ## Concrete inputs used below -/

/-- The two bytes of the UTF-8 text `é` (U+00E9). -/
def eAcute : GoString := [0xC3, 0xA9]

/-- The menu that `showMenu` builds, with the cursor on its first item. -/
def mainMenu : Menu :=
  { Prompt := ascii "Select an action:",
    CursorPos := 0,
    Selected := [],
    MenuItems := [ ⟨ascii "Add a new log", ascii "add"⟩,
                   ⟨ascii "View logs", ascii "view"⟩,
                   ⟨ascii "Exit", ascii "exit"⟩ ] }

/-- A table of two columns and one row: the cell of `Customer` is longer than
its header, the cell of `Hours` is shorter than its header. -/
def sampleTable : Table :=
  { Columns := [ascii "Customer", ascii "Hours"],
    Rows := [[ascii "Acme Corporation Ltd", ascii "2.5"]],
    selectedRow := 0 }

/-- Two records as `viewLogs` lays them out; the descriptions make the table
wider than the footer hint, so that `Table.render` completes on it, also when
only the first record is left. -/
def wideLogs : List (List GoString) :=
  [ [ascii "Acme", ascii "2.50", ascii "2024-01-01",
      ascii "quarterly planning meeting on site"],
    [ascii "Initech", ascii "1.00", ascii "2024-01-02",
      ascii "review of the printer driver backlog"] ]

/-- A table without rows whose single header is wider than the footer hint, so
that `Table.render` completes on it. -/
def wideEmptyTable : Table :=
  { Columns := [ascii "Description of the work carried out for the customer"],
    Rows := [],
    selectedRow := 0 }

/-! # Theorems -/

/-! ## Lemmas on `Parse` -/

theorem byteString_of_lt {b : Nat} (h : b < 128) : byteString b = [b] := by
  simp [byteString, h]

theorem parseLoop_append (a b : GoString) (st : ParseState) :
    parseLoop (a ++ b) st = (parseLoop a st).bind (parseLoop b) := by
  induction a generalizing st with
  | nil => simp [parseLoop]
  | cons c a ih =>
    simp only [List.cons_append, parseLoop]
    cases parseStep st c with
    | none => simp
    | some st2 => simpa using ih st2

theorem lastByte_ne {x : GoString} {p q : Nat} (hp : p ≠ q) (hx : ∀ c ∈ x, c ≠ q) :
    lastByte p x ≠ q := by
  induction x generalizing p with
  | nil => simpa [lastByte] using hp
  | cons c x ih =>
    have hc : c ≠ q := hx c (by simp)
    have := ih (p := c) hc (fun d hd => hx d (by simp [hd]))
    simpa [lastByte] using this

/-- Outside a directive, ASCII bytes other than the brackets are appended to
the output one by one. -/
theorem parseLoop_plain (x : GoString) (st : ParseState) (hs : st.styling = false)
    (hx : ∀ c ∈ x, c < 128 ∧ c ≠ 91 ∧ c ≠ 93) :
    parseLoop x st =
      some { st with output := st.output ++ x, prevChar := lastByte st.prevChar x } := by
  induction x generalizing st with
  | nil => simp [parseLoop, lastByte]
  | cons c x ih =>
    obtain ⟨h1, h2, h3⟩ := hx c (by simp)
    have hstep : parseStep st c = some { st with output := st.output ++ [c], prevChar := c } := by
      simp [parseStep, h2, h3, hs, byteString_of_lt h1]
    rw [parseLoop, hstep, Option.some_bind,
      ih { st with output := st.output ++ [c], prevChar := c } hs
        (fun d hd => hx d (by simp [hd]))]
    simp [lastByte]

/-- Inside a directive, ASCII bytes other than the brackets are appended to
`currentStyle` one by one. -/
theorem parseLoop_style (t : GoString) (st : ParseState) (hs : st.styling = true)
    (ht : ∀ c ∈ t, c < 128 ∧ c ≠ 91 ∧ c ≠ 93) :
    parseLoop t st =
      some { st with currentStyle := st.currentStyle ++ t,
                     prevChar := lastByte st.prevChar t } := by
  induction t generalizing st with
  | nil => simp [parseLoop, lastByte]
  | cons c t ih =>
    obtain ⟨h1, h2, h3⟩ := ht c (by simp)
    have hstep : parseStep st c =
        some { st with currentStyle := st.currentStyle ++ [c], prevChar := c } := by
      simp [parseStep, h2, h3, hs, byteString_of_lt h1]
    rw [parseLoop, hstep, Option.some_bind,
      ih { st with currentStyle := st.currentStyle ++ [c], prevChar := c } hs
        (fun d hd => ht d (by simp [hd]))]
    simp [lastByte]

theorem Split_of_not_mem (sep : Nat) (t : GoString) (h : sep ∉ t) : Split sep t = [t] := by
  induction t with
  | nil => rfl
  | cons b t ih =>
    have hb : b ≠ sep := fun e => h (by simp [e])
    have ht : sep ∉ t := fun e => h (by simp [e])
    simp [Split, hb, ih ht]

theorem Split_append_sep (sep : Nat) (t rest : GoString) (h : sep ∉ t) :
    Split sep (t ++ sep :: rest) = t :: Split sep rest := by
  induction t with
  | nil => simp [Split]
  | cons b t ih =>
    have hb : b ≠ sep := fun e => h (by simp [e])
    have ht : sep ∉ t := fun e => h (by simp [e])
    simp [Split, hb, ih ht]

/-- Splitting the joined tokens on `','` gives the tokens back. -/
theorem Split_joinComma (ts : List GoString) (hne : ts ≠ []) (h : ∀ t ∈ ts, 44 ∉ t) :
    Split 44 (joinComma ts) = ts := by
  induction ts with
  | nil => exact absurd rfl hne
  | cons t ts ih =>
    cases ts with
    | nil => simpa [joinComma] using Split_of_not_mem 44 t (h t (by simp))
    | cons t2 ts =>
      have h1 : 44 ∉ t := h t (by simp)
      have h2 := ih (by simp) (fun u hu => h u (by simp [hu]))
      rw [joinComma, Split_append_sep 44 t _ h1, h2]

theorem mem_joinComma {ts : List GoString} {c : Nat} (hc : c ∈ joinComma ts) :
    c = 44 ∨ ∃ t ∈ ts, c ∈ t := by
  induction ts with
  | nil => simp [joinComma] at hc
  | cons t ts ih =>
    cases ts with
    | nil => exact Or.inr ⟨t, by simp, by simpa [joinComma] using hc⟩
    | cons t2 ts =>
      rw [joinComma, List.mem_append, List.mem_cons] at hc
      rcases hc with hc | hc | hc
      · exact Or.inr ⟨t, by simp, hc⟩
      · exact Or.inl hc
      · rcases ih hc with h | ⟨u, hu, hcu⟩
        · exact Or.inl h
        · exact Or.inr ⟨u, by simp [hu], hcu⟩

theorem foldl_codes (ts : List GoString) (out : GoString) :
    ts.foldl (fun out style => out ++ StyleMap (TrimSpace style)) out
      = out ++ (ts.map code).flatten := by
  induction ts generalizing out with
  | nil => simp
  | cons t ts ih => simp [ih, code]

/-- A whole directive `[t1,...,tn]` of ASCII tokens, read in a state whose
previous byte is not `'/'`, appends the codes of the tokens in order and leaves
the directive. -/
theorem parseLoop_directive (ts : List GoString) (st : ParseState)
    (hp : st.prevChar ≠ 47) (hne : ts ≠ [])
    (h : ∀ t ∈ ts, ∀ c ∈ t, c < 128 ∧ c ≠ 91 ∧ c ≠ 93 ∧ c ≠ 44 ∧ c ≠ 47) :
    parseLoop (91 :: (joinComma ts ++ [93])) st =
      some { output := st.output ++ (ts.map code).flatten,
             currentStyle := [], styling := false, prevChar := 93 } := by
  have hj : ∀ c ∈ joinComma ts, c < 128 ∧ c ≠ 91 ∧ c ≠ 93 := by
    intro c hc
    rcases mem_joinComma hc with e | ⟨t, ht, hct⟩
    · subst e; decide
    · obtain ⟨a, b, c2, _, _⟩ := h t ht c hct
      exact ⟨a, b, c2⟩
  have hj47 : ∀ c ∈ joinComma ts, c ≠ 47 := by
    intro c hc
    rcases mem_joinComma hc with e | ⟨t, ht, hct⟩
    · subst e; decide
    · exact (h t ht c hct).2.2.2.2
  have hsplit : Split 44 (joinComma ts) = ts :=
    Split_joinComma ts hne (fun t ht e => (h t ht 44 e).2.2.2.1 rfl)
  have hopen : parseStep st 91 =
      some { st with currentStyle := [], styling := true, prevChar := 91 } := by
    simp [parseStep, hp]
  have hlast : lastByte 91 (joinComma ts) ≠ 47 := lastByte_ne (by decide) hj47
  rw [parseLoop, hopen, Option.some_bind, parseLoop_append,
    parseLoop_style _ _ rfl hj, Option.some_bind]
  simp [parseLoop, parseStep, hlast, hsplit, foldl_codes]

/-- ASCII case of directive resolution: tokens and text of bytes below 128. -/
theorem Parse_directive_ascii (ts : List GoString) (x : GoString) (hne : ts ≠ [])
    (h : ∀ t ∈ ts, ∀ c ∈ t, c < 128 ∧ c ≠ 91 ∧ c ≠ 93 ∧ c ≠ 44 ∧ c ≠ 47)
    (hx : ∀ c ∈ x, c < 128 ∧ c ≠ 91 ∧ c ≠ 93 ∧ c ≠ 47) :
    Parse ([91] ++ joinComma ts ++ [93] ++ x ++ ascii "[reset]") =
      some ((ts.map code).flatten ++ x ++ code (ascii "reset")) := by
  have hreset : ascii "[reset]" = 91 :: (joinComma [ascii "reset"] ++ [93]) := by decide
  have e : [91] ++ joinComma ts ++ [93] ++ x ++ ascii "[reset]" =
      (91 :: (joinComma ts ++ [93])) ++ (x ++ ascii "[reset]") := by simp
  have hx47 : lastByte 93 x ≠ 47 := lastByte_ne (by decide) (fun c hc => (hx c hc).2.2.2)
  rw [Parse, e, parseLoop_append, parseLoop_directive ts _ (by decide) hne h, Option.some_bind,
    parseLoop_append,
    parseLoop_plain x _ rfl (fun c hc => ⟨(hx c hc).1, (hx c hc).2.1, (hx c hc).2.2.1⟩),
    Option.some_bind, hreset,
    parseLoop_directive [ascii "reset"] _ hx47 (by simp) (by decide)]
  simp

/-- ASCII case of bracket escaping: `/[` and `/]` around a text of bytes below
128 render as the literal brackets. -/
theorem Parse_escaped_ascii (t : GoString)
    (ht : ∀ c ∈ t, c < 128 ∧ c ≠ 91 ∧ c ≠ 93 ∧ c ≠ 47) :
    Parse (ascii "/[" ++ t ++ ascii "/]") = some ([91] ++ t ++ [93]) := by
  have e : ascii "/[" ++ t ++ ascii "/]" = [47, 91] ++ (t ++ ([47] ++ [93])) := by
    have : ascii "/[" = [47, 91] := by decide
    have : ascii "/]" = [47, 93] := by decide
    simp [*]
  have h1 : parseLoop [47, 91] { output := [], currentStyle := [], styling := false, prevChar := 0 }
      = some { output := [91], currentStyle := [], styling := false, prevChar := 91 } := by
    decide
  rw [Parse, e, parseLoop_append, h1, Option.some_bind, parseLoop_append,
    parseLoop_plain t _ rfl (fun c hc => ⟨(ht c hc).1, (ht c hc).2.1, (ht c hc).2.2.1⟩),
    Option.some_bind, parseLoop_append,
    parseLoop_plain [47] _ rfl (by decide), Option.some_bind]
  simp [parseLoop, parseStep, lastByte, byteString]

/-- ASCII case of the identity on plain text: an input of bytes below 128 with
no bracket is returned unchanged. -/
theorem Parse_plain_ascii (s : GoString) (hs : ∀ c ∈ s, c < 128 ∧ c ≠ 91 ∧ c ≠ 93) :
    Parse s = some s := by
  rw [Parse, parseLoop_plain s _ rfl hs]
  simp

/-- The three documented examples of directive resolution, and the documented
examples of escaping and of plain text, evaluated. -/
theorem Parse_documented_examples :
    Parse (ascii "[red]x[reset]") = some (ascii "\x1b[31;1mx\x1b[0m")
      ∧ Parse (ascii "[bold,red]x[reset]") = some (ascii "\x1b[1m\x1b[31;1mx\x1b[0m")
      ∧ Parse (ascii "[bogus]x[reset]") = some (ascii "x\x1b[0m")
      ∧ Parse (ascii "/[literal/]") = some (ascii "[literal]")
      ∧ Parse (ascii "plain text") = some (ascii "plain text") := by
  decide

/-! ## Lemmas on the menu -/

theorem selectKey_items (m : Menu) (k : Nat) : (selectKey m k).MenuItems = m.MenuItems := by
  unfold selectKey
  split_ifs <;> rfl

theorem multiSelectKey_items (m : Menu) (k : Nat) :
    (multiSelectKey m k).MenuItems = m.MenuItems := by
  unfold multiSelectKey
  split_ifs <;> rfl

theorem selectKey_up (m : Menu) (h0 : 0 ≤ m.CursorPos) :
    (selectKey m up).CursorPos = max (m.CursorPos - 1) 0 := by
  unfold selectKey
  simp only [if_true]
  split_ifs with h
  · simp only []; omega
  · omega

theorem selectKey_down (m : Menu) (h1 : m.CursorPos < m.MenuItems.length) :
    (selectKey m down).CursorPos = min (m.CursorPos + 1) ((m.MenuItems.length : Int) - 1) := by
  unfold selectKey
  have : down ≠ up := by decide
  simp only [this, if_false, if_true]
  split_ifs with h
  · simp only []; omega
  · omega

theorem multiSelectKey_up (m : Menu) :
    (multiSelectKey m up).CursorPos = max (m.CursorPos - 1) 0 := by
  simp [multiSelectKey]

theorem multiSelectKey_down (m : Menu) :
    (multiSelectKey m down).CursorPos
      = min (m.CursorPos + 1) ((m.MenuItems.length : Int) - 1) := by
  have : down ≠ up := by decide
  simp [multiSelectKey, this]

/-- Both widgets, started on menus with the same items and the same cursor in
bounds, stay in bounds and keep the same cursor under up and down keys. -/
theorem fold_cursor (ks : List Nat) (hk : ∀ k ∈ ks, k = up ∨ k = down) (a b : Menu)
    (hi : a.MenuItems = b.MenuItems) (hc : a.CursorPos = b.CursorPos)
    (h0 : 0 ≤ a.CursorPos) (h1 : a.CursorPos < a.MenuItems.length) :
    0 ≤ (ks.foldl selectKey a).CursorPos
      ∧ (ks.foldl selectKey a).CursorPos < a.MenuItems.length
      ∧ (ks.foldl multiSelectKey b).CursorPos = (ks.foldl selectKey a).CursorPos := by
  induction ks generalizing a b with
  | nil => exact ⟨h0, h1, hc.symm⟩
  | cons k ks ih =>
    have hb1 : b.CursorPos < b.MenuItems.length := by rw [← hi, ← hc]; exact h1
    have key : (selectKey a k).CursorPos = (multiSelectKey b k).CursorPos
        ∧ 0 ≤ (selectKey a k).CursorPos
        ∧ (selectKey a k).CursorPos < a.MenuItems.length := by
      rcases hk k (by simp) with e | e
      · subst e
        rw [selectKey_up a h0, multiSelectKey_up, hc]
        refine ⟨rfl, ?_, ?_⟩ <;> omega
      · subst e
        rw [selectKey_down a h1, multiSelectKey_down, hc, hi]
        rw [hi] at h1
        refine ⟨rfl, ?_, ?_⟩ <;> omega
    have hi2 : (selectKey a k).MenuItems = (multiSelectKey b k).MenuItems := by
      rw [selectKey_items, multiSelectKey_items, hi]
    have := ih (fun j hj => hk j (by simp [hj])) (selectKey a k) (multiSelectKey b k) hi2
      key.1 key.2.1 (by rw [selectKey_items]; exact key.2.2)
    rw [selectKey_items] at this
    simpa using this

theorem contains_eq_false_iff (arr : List Int) (val : Int) :
    contains arr val = false ↔ val ∉ arr := by
  induction arr with
  | nil => simp [contains]
  | cons item rest ih =>
    by_cases h : item = val
    · simp [contains, h]
    · simp [contains, h, ih, Ne.symm h]

theorem remove_loop (arr : List Int) (val : Int) (out : List Int) :
    arr.foldl (fun output item => if item ≠ val then output ++ [item] else output) out
      = out ++ arr.filter (fun item => decide (item ≠ val)) := by
  induction arr generalizing out with
  | nil => simp
  | cons item rest ih =>
    rw [List.foldl_cons, ih]
    by_cases h : item = val
    · rw [if_neg (not_not.mpr h), List.filter_cons_of_neg (by simpa using h)]
    · rw [if_pos h, List.filter_cons_of_pos (by simpa using h)]
      simp

theorem remove_eq_filter (arr : List Int) (val : Int) :
    remove arr val = arr.filter (fun item => decide (item ≠ val)) := by
  rw [remove, remove_loop, List.nil_append]

theorem remove_append_self (arr : List Int) (val : Int) (h : val ∉ arr) :
    remove (arr ++ [val]) val = arr := by
  rw [remove_eq_filter, List.filter_append]
  have h1 : arr.filter (fun item => decide (item ≠ val)) = arr := by
    rw [List.filter_eq_self]
    intro a ha
    have : a ≠ val := fun e => h (e ▸ ha)
    simpa using this
  have h2 : [val].filter (fun item => decide (item ≠ val)) = [] := by
    rw [List.filter_cons_of_neg (by simp)]
    rfl
  rw [h1, h2, List.append_nil]

/-! ## Lemmas on the table layout -/

theorem maxCellLen_nonneg (rows : List (List GoString)) (i : Nat) :
    0 ≤ maxCellLen rows i := by
  induction rows with
  | nil => simp [maxCellLen]
  | cons row rows ih =>
    have : maxCellLen (row :: rows) i
        = max ((row.getD i []).length : Int) (maxCellLen rows i) := by
      simp [maxCellLen]
    rw [this]
    exact le_max_of_le_right ih

theorem width_loop (i : Nat) (rows : List (List GoString)) (acc : Int) (hacc : 0 ≤ acc)
    (h : ∀ row ∈ rows, i < row.length) :
    rows.foldlM (fun (curmax : Int) (row : List GoString) =>
        (row.get? i).map (fun cell => max curmax (cell.length : Int))) acc
      = some (max acc (maxCellLen rows i)) := by
  induction rows generalizing acc with
  | nil => simp [maxCellLen, hacc]
  | cons row rows ih =>
    have hr : i < row.length := h row (by simp)
    have hget : row.get? i = some (row.getD i []) := by
      simp [List.getD, List.getElem?_eq_getElem hr]
    rw [List.foldlM_cons, hget]
    simp only [Option.map_some', Option.bind_eq_bind, Option.some_bind]
    rw [ih _ (le_max_of_le_left hacc) (fun r hr2 => h r (by simp [hr2]))]
    simp [maxCellLen, max_assoc]

theorem columnWidth_eq (rows : List (List GoString)) (i : Nat) (column : GoString)
    (h : ∀ row ∈ rows, i < row.length) :
    columnWidth rows i column
      = some (max (column.length : Int) (maxCellLen rows i) + 2) := by
  have h0 : max (0 : Int) (maxCellLen rows i) = maxCellLen rows i :=
    max_eq_right (maxCellLen_nonneg rows i)
  rw [columnWidth, width_loop i rows 0 le_rfl h, h0]
  simp [padding, max_comm]

theorem mapM_some {α β : Type} (f : α → Option β) (g : α → β) (l : List α)
    (h : ∀ a ∈ l, f a = some (g a)) : l.mapM f = some (l.map g) := by
  induction l with
  | nil => rfl
  | cons a l ih =>
    rw [List.mapM_cons, h a (by simp), ih (fun b hb => h b (by simp [hb]))]
    rfl

theorem length_removeIndex (t : Table) (i : Int) (rows : List (List GoString))
    (h : removeIndex t i = some rows) : (rows.length : Int) = t.Rows.length - 1 := by
  unfold removeIndex at h
  split_ifs at h with hb
  have e := Option.some.inj h
  subst e
  simp only [List.length_append, List.length_take, List.length_drop]
  omega

/-- Where the key handling keeps the highlighted row in bounds: on every key
that does not panic, except a down key on a table without rows and a confirmed
delete of the last row of a table with several rows. -/
theorem renderKey_bounds_kept (s s2 : RenderState) (ev : TableEvent)
    (hin : rowInBounds s.table) (hstep : renderKey s ev = some s2)
    (hdown : ev = .keyDown → s.table.Rows ≠ [])
    (hdel : ev = .deleteConfirmed →
      s.table.selectedRow + 1 < s.table.Rows.length ∨ s.table.Rows.length = 1) :
    rowInBounds s2.table := by
  obtain ⟨h0, h1⟩ := hin
  cases ev with
  | keyUp =>
    simp only [renderKey, Option.some.injEq] at hstep
    subst hstep
    refine ⟨by simp, ?_⟩
    rcases h1 with h1 | h1
    · exact Or.inl h1
    · right; simp only []; omega
  | keyDown =>
    have hne := hdown rfl
    have hpos : 0 < s.table.Rows.length := List.length_pos.mpr hne
    simp only [renderKey, Option.some.injEq] at hstep
    subst hstep
    refine ⟨?_, Or.inr ?_⟩ <;> simp only [] <;> omega
  | deleteDeclined =>
    simp only [renderKey, Option.some.injEq] at hstep
    subst hstep
    exact ⟨h0, h1⟩
  | deleteConfirmed =>
    simp only [renderKey] at hstep
    split_ifs at hstep with hb
    cases hr : removeIndex s.table s.table.selectedRow with
    | none => simp [hr] at hstep
    | some rows =>
      have hlen := length_removeIndex _ _ _ hr
      simp only [hr, Option.map_some', Option.some.injEq] at hstep
      subst hstep
      refine ⟨h0, ?_⟩
      rcases hdel rfl with h | h
      · right; simp only []; omega
      · left
        simp only []
        apply List.eq_nil_of_length_eq_zero
        omega
  | edit cells =>
    simp only [renderKey] at hstep
    split_ifs at hstep with ha hb
    have e := Option.some.inj hstep
    subst e
    refine ⟨h0, Or.inr ?_⟩
    simp only [List.length_set]
    omega

theorem renderKey_of_renderEvent (s s2 : RenderState) (ev : TableEvent)
    (h : renderEvent s ev = some s2) : renderKey s ev = some s2 := by
  unfold renderEvent at h
  cases hk : renderKey s ev with
  | none => simp [hk] at h
  | some s3 =>
    cases hr : render s3.table with
    | none => simp [hk, hr] at h
    | some out =>
      simp only [hk, hr, Option.some_bind, Option.map_some', Option.some.injEq] at h
      rw [h]

/-- Where the highlighted row stays in bounds: under every iteration of the
loop of `Table.Render` that does not panic, except a down key on a table
without rows and a confirmed delete of the last row of a table with several
rows. -/
theorem renderEvent_bounds_kept (s s2 : RenderState) (ev : TableEvent)
    (hin : rowInBounds s.table) (hstep : renderEvent s ev = some s2)
    (hdown : ev = .keyDown → s.table.Rows ≠ [])
    (hdel : ev = .deleteConfirmed →
      s.table.selectedRow + 1 < s.table.Rows.length ∨ s.table.Rows.length = 1) :
    rowInBounds s2.table :=
  renderKey_bounds_kept s s2 ev hin (renderKey_of_renderEvent s s2 ev hstep) hdown hdel

/-- When restoring or closing the terminal fails, `Menu.getKey` returns the
neutral key code 0; when fewer than three bytes were read it returns the first
byte. -/
theorem getKey_fallbacks (read : Int) (b0 b1 b2 : Nat) (closeOk : Bool) :
    getKey false closeOk read b0 b1 b2 = 0
      ∧ getKey true false read b0 b1 b2 = 0
      ∧ (read ≠ 3 → getKey true true read b0 b1 b2 = b0) := by
  refine ⟨by simp [getKey], by simp [getKey], fun h => by simp [getKey, h]⟩

/-! ## Style Engine: the claims -/

/-- C1 (directive resolution), evaluated on the directive `[red]`, the text `é`
and `[reset]`: `Parse` returns the red code, then the four bytes `C3 83 C2 A9`
(the text `Ã©`) in place of the two bytes of `é`, then the reset code. The text
holds none of `'['`, `']'`, `'/'`, and the result differs from
`code(red) + x + code(reset)`. -/
theorem Parse_directive_text_not_verbatim :
    (∀ c ∈ eAcute, c ≠ 91 ∧ c ≠ 93 ∧ c ≠ 47)
      ∧ Parse ([91] ++ joinComma [ascii "red"] ++ [93] ++ eAcute ++ ascii "[reset]")
          = some (code (ascii "red") ++ [0xC3, 0x83, 0xC2, 0xA9] ++ code (ascii "reset"))
      ∧ Parse ([91] ++ joinComma [ascii "red"] ++ [93] ++ eAcute ++ ascii "[reset]")
          ≠ some (code (ascii "red") ++ eAcute ++ code (ascii "reset")) := by
  decide

/-- C2 (escaped brackets), evaluated on `/[é/]`: `Parse` returns `[`, the four
bytes `C3 83 C2 A9` and `]`, which is not `[é]`; the text `é` holds none of
`'['`, `']'`, `'/'`. -/
theorem Parse_escaped_text_not_verbatim :
    (∀ c ∈ eAcute, c ≠ 91 ∧ c ≠ 93 ∧ c ≠ 47)
      ∧ Parse (ascii "/[" ++ eAcute ++ ascii "/]")
          = some ([91] ++ [0xC3, 0x83, 0xC2, 0xA9] ++ [93])
      ∧ Parse (ascii "/[" ++ eAcute ++ ascii "/]") ≠ some ([91] ++ eAcute ++ [93]) := by
  decide

/-- C3 (plain text is returned unchanged), evaluated on the input `é`, which
holds neither `'['` nor `']'`: `Parse` returns the four bytes `C3 83 C2 A9`, not
the input. -/
theorem Parse_plain_text_not_verbatim :
    (∀ c ∈ eAcute, c ≠ 91 ∧ c ≠ 93)
      ∧ Parse eAcute = some [0xC3, 0x83, 0xC2, 0xA9]
      ∧ Parse eAcute ≠ some eAcute := by
  decide

/-- C4 (`Parse` is never fatal), evaluated on `[/]` and `[/[`: an escaped
bracket inside an open directive with nothing emitted yet makes the slice
`output[:len(output)-1]` panic, so `Parse` returns no string. -/
theorem Parse_panics_on_escaped_bracket_in_directive :
    Parse (ascii "[/]") = none ∧ Parse (ascii "[/[") = none
      ∧ parseStep { output := [], currentStyle := [47], styling := true, prevChar := 47 } 93
          = none := by
  decide

/-! ## Menu Widget: the claims -/

/-- C5 (menu cursor invariant): for a menu whose cursor satisfies
`0 ≤ cursor < len(items)` (so that it has at least one item) and every finite
sequence of up and down keys, the
cursor after the transitions of `Select` and after those of `MultiSelect` is
again in `0 ≤ cursor < len(items)`, and is the same for both; one up key gives
`max(cursor-1, 0)` and one down key `min(cursor+1, len(items)-1)` in both
widgets, so up at index 0 stays at 0 and down at the last index stays there. -/
theorem menu_cursor_stays_in_bounds (m : Menu) (ks : List Nat)
    (h0 : 0 ≤ m.CursorPos) (h1 : m.CursorPos < m.MenuItems.length)
    (hk : ∀ k ∈ ks, k = up ∨ k = down) :
    (0 ≤ (ks.foldl selectKey m).CursorPos
        ∧ (ks.foldl selectKey m).CursorPos < m.MenuItems.length)
      ∧ (0 ≤ (ks.foldl multiSelectKey m).CursorPos
        ∧ (ks.foldl multiSelectKey m).CursorPos < m.MenuItems.length)
      ∧ (ks.foldl multiSelectKey m).CursorPos = (ks.foldl selectKey m).CursorPos
      ∧ (selectKey m up).CursorPos = max (m.CursorPos - 1) 0
      ∧ (multiSelectKey m up).CursorPos = max (m.CursorPos - 1) 0
      ∧ (selectKey m down).CursorPos = min (m.CursorPos + 1) ((m.MenuItems.length : Int) - 1)
      ∧ (multiSelectKey m down).CursorPos
          = min (m.CursorPos + 1) ((m.MenuItems.length : Int) - 1)
      ∧ (m.CursorPos = 0 →
          (selectKey m up).CursorPos = 0 ∧ (multiSelectKey m up).CursorPos = 0)
      ∧ (m.CursorPos = (m.MenuItems.length : Int) - 1 →
          (selectKey m down).CursorPos = (m.MenuItems.length : Int) - 1
            ∧ (multiSelectKey m down).CursorPos = (m.MenuItems.length : Int) - 1) := by
  obtain ⟨a, b, c⟩ := fold_cursor ks hk m m rfl rfl h0 h1
  have hu := selectKey_up m h0
  have hd := selectKey_down m h1
  have mu := multiSelectKey_up m
  have md := multiSelectKey_down m
  refine ⟨⟨a, b⟩, ⟨c ▸ a, c ▸ b⟩, c, hu, mu, hd, md, ?_, ?_⟩
  · intro e
    rw [hu, mu, e]
    exact ⟨rfl, rfl⟩
  · intro e
    rw [hd, md, e]
    constructor <;> simp

/-- Witness of C5: the main menu, three down keys and one up key. -/
theorem menu_cursor_stays_in_bounds_witness :
    (0 ≤ mainMenu.CursorPos ∧ mainMenu.CursorPos < mainMenu.MenuItems.length
        ∧ ∀ k ∈ [down, down, down, up], k = up ∨ k = down)
      ∧ ([down, down, down, up].foldl selectKey mainMenu).CursorPos = 1
      ∧ ([down, down, down, up].foldl multiSelectKey mainMenu).CursorPos
          = ([down, down, down, up].foldl selectKey mainMenu).CursorPos :=
  ⟨by decide, by decide,
    (menu_cursor_stays_in_bounds mainMenu [down, down, down, up]
      (by decide) (by decide) (by decide)).2.2.1⟩

/-- C9 (multi-select toggle): when the cursor index is not in the selection, a
first space key appends it to the selection and a second space key removes it,
which gives back the menu with the selection it had, same elements in the same
order. -/
theorem toggle_twice_restores_selection (m : Menu)
    (h : contains m.Selected m.CursorPos = false) :
    (multiSelectKey m 32).Selected = m.Selected ++ [m.CursorPos]
      ∧ (multiSelectKey (multiSelectKey m 32) 32).Selected = m.Selected
      ∧ multiSelectKey (multiSelectKey m 32) 32 = m := by
  have hmem : m.CursorPos ∉ m.Selected := (contains_eq_false_iff _ _).mp h
  have hup : (32 : Nat) ≠ up := by decide
  have hdown : (32 : Nat) ≠ down := by decide
  have h1 : multiSelectKey m 32 = { m with Selected := m.Selected ++ [m.CursorPos] } := by
    simp [multiSelectKey, hup, hdown, h]
  have h2 : contains (m.Selected ++ [m.CursorPos]) m.CursorPos = true := by
    cases hc : contains (m.Selected ++ [m.CursorPos]) m.CursorPos with
    | true => rfl
    | false => exact absurd ((contains_eq_false_iff _ _).mp hc) (by simp)
  have h3 : multiSelectKey (multiSelectKey m 32) 32 = m := by
    rw [h1]
    simp [multiSelectKey, hup, hdown, h2, remove_append_self _ _ hmem]
  exact ⟨by rw [h1], by rw [h3], h3⟩

/-- Witness of C9: the selection `[2, 0]` with the cursor on index 1. -/
theorem toggle_twice_restores_selection_witness :
    contains [2, 0] 1 = false
      ∧ (multiSelectKey (multiSelectKey { mainMenu with CursorPos := 1, Selected := [2, 0] } 32)
          32).Selected = [2, 0] :=
  ⟨by decide,
    (toggle_twice_restores_selection { mainMenu with CursorPos := 1, Selected := [2, 0] }
      (by decide)).2.1⟩

/-! ## Key Reader: the claim -/

/-- C10 (decision rule of `Menu.getKey`), evaluated on the arrow sequences: with
restore and close succeeding and the three bytes 27, 91 and 65, 66, 67 or 68
read, `Menu.getKey` returns 0 and not the third byte, because the byte is
looked up in `keys` (13, 32, 27, 91); `GetKey` returns the third byte on the
same reads. On a read of three bytes `a`, `b`, `c` it returns 0, not the first
byte. -/
theorem getKey_drops_arrow_keys :
    getKey true true 3 27 91 up = 0
      ∧ getKey true true 3 27 91 down = 0
      ∧ getKey true true 3 27 91 right = 0
      ∧ getKey true true 3 27 91 left = 0
      ∧ GetKey 27 91 up = up ∧ GetKey 27 91 down = down
      ∧ GetKey 27 91 right = right ∧ GetKey 27 91 left = left
      ∧ getKey true true 3 97 98 99 = 0 := by
  decide

/-! ## Table Widget: the claims -/

set_option maxRecDepth 100000

/-- C6 (highlighted row stays in bounds), evaluated on the table that
`viewLogs` builds from the two records `wideLogs`. `Table.Render` draws the
table, a down key highlights the second row (`selectedRow = 1`, in bounds, the
table drawn again), and a confirmed delete then leaves one row, one record and
`selectedRow = 1`, above `len(rows) - 1 = 0`, with the table drawn again: the
state after the delete is out of bounds. An edit in that state panics. On
`wideEmptyTable`, a table without rows that `Table.Render` draws, a down key
gives `selectedRow = -1`. -/
theorem delete_last_row_leaves_bounds :
    (Render { table := viewLogsTable wideLogs, dbLogs := 2 } [.keyDown]
        = some { table := { viewLogsTable wideLogs with selectedRow := 1 }, dbLogs := 2 }
      ∧ rowInBounds { viewLogsTable wideLogs with selectedRow := 1 })
    ∧ (renderEvent { table := { viewLogsTable wideLogs with selectedRow := 1 }, dbLogs := 2 }
          .deleteConfirmed
        = some { table := { viewLogsTable [wideLogs.getD 0 []] with selectedRow := 1 },
                 dbLogs := 1 }
      ∧ ¬ rowInBounds { viewLogsTable [wideLogs.getD 0 []] with selectedRow := 1 })
    ∧ (Render { table := viewLogsTable wideLogs, dbLogs := 2 } [.keyDown, .deleteConfirmed]).map
          (fun s => (s.table.Rows.length, s.table.selectedRow, s.dbLogs)) = some (1, 1, 1)
    ∧ (∀ cells, renderEvent
          { table := { viewLogsTable [wideLogs.getD 0 []] with selectedRow := 1 }, dbLogs := 1 }
          (.edit cells) = none)
    ∧ (rowInBounds wideEmptyTable
      ∧ Render { table := wideEmptyTable, dbLogs := 0 } [.keyDown]
          = some { table := { wideEmptyTable with selectedRow := -1 }, dbLogs := 0 }
      ∧ ¬ rowInBounds { wideEmptyTable with selectedRow := -1 }) := by
  refine ⟨⟨by decide, by decide⟩, ⟨by decide, by decide⟩, by decide, ?_,
    by decide, by decide, by decide⟩
  intro cells
  rfl

/-- C7 (column width): in a table whose rows all have as many cells as there
are columns, the first loop of `Table.render` does not panic and the width it
stores for column `i` is `max(len(header i), maximum of len(row[i]) over the
rows) + 2`, the maximum over zero rows being 0. -/
theorem column_width_is_max_plus_padding (t : Table)
    (h : ∀ row ∈ t.Rows, row.length = t.Columns.length)
    (i : Nat) (hi : i < t.Columns.length) :
    ∃ widths, columnMaxWidthMap t = some widths
      ∧ widths.length = t.Columns.length
      ∧ widths.get? i
          = some (max ((t.Columns.getD i []).length : Int) (maxCellLen t.Rows i) + 2) := by
  have hall : columnMaxWidthMap t = some (t.Columns.enum.map
      (fun ic => max (ic.2.length : Int) (maxCellLen t.Rows ic.1) + 2)) := by
    apply mapM_some
    intro ic hic
    apply columnWidth_eq
    intro row hrow
    rw [h row hrow]
    exact List.fst_lt_of_mem_enum hic
  refine ⟨_, hall, by simp, ?_⟩
  simp [List.getElem?_enum, List.getElem?_eq_getElem hi, List.getD]

/-- Witness of C7: in `sampleTable` the cell of column 0 (20 bytes) is longer
than its header (8 bytes) and the header of column 1 (5 bytes) is longer than
its cell (3 bytes); the widths are 22 and 7. -/
theorem column_width_is_max_plus_padding_witness :
    (∀ row ∈ sampleTable.Rows, row.length = sampleTable.Columns.length)
      ∧ columnMaxWidthMap sampleTable = some [22, 7]
      ∧ (∃ widths, columnMaxWidthMap sampleTable = some widths
          ∧ widths.length = sampleTable.Columns.length
          ∧ widths.get? 0 = some (max ((sampleTable.Columns.getD 0 []).length : Int)
              (maxCellLen sampleTable.Rows 0) + 2))
      ∧ (∃ widths, columnMaxWidthMap sampleTable = some widths
          ∧ widths.length = sampleTable.Columns.length
          ∧ widths.get? 1 = some (max ((sampleTable.Columns.getD 1 []).length : Int)
              (maxCellLen sampleTable.Rows 1) + 2)) :=
  ⟨by decide, by decide,
    column_width_is_max_plus_padding sampleTable (by decide) 0 (by decide),
    column_width_is_max_plus_padding sampleTable (by decide) 1 (by decide)⟩

/-- C8 (a table with zero rows renders), evaluated on the table of `viewLogs`
with no record: the widths are 10, 7, 6 and 13, the header line is built, and
the footer padding `totalWidth/2 - len(msg)/2 = 18 - 25 = -7` is negative, so
`strings.Repeat` panics and `Table.render` does not complete. -/
theorem render_of_empty_table_panics :
    columnMaxWidthMap (viewLogsTable []) = some [10, 7, 6, 13]
      ∧ (headerText [10, 7, 6, 13] (viewLogsTable []).Columns).isSome = true
      ∧ bodyText [10, 7, 6, 13] (viewLogsTable []) = some []
      ∧ footerPad [10, 7, 6, 13] = -7
      ∧ Repeat [32] (footerPad [10, 7, 6, 13]) = none
      ∧ render (viewLogsTable []) = none := by
  decide

end Loggit
